import Mathlib

/-
Verification of the gofml command-line tool (package gofml: init.go, main.go).

The development shallowly embeds the string-processing and filesystem
behaviour of the tool:

* `goBase`, `goClean`, `goJoin` model Go's `path/filepath` functions
  `Base`, `Clean` and `Join` for unix paths.
* `parseInitFlags` models `flag.FlagSet.Parse` for the two string flags
  `-g` and `-n` registered by `NewInitTask`, with `flag.ExitOnError`
  error handling (a parse failure terminates the process, modelled by
  the `.exit` constructor).
* `newInitTask` models `NewInitTask` from init.go.
* `FS` is an in-memory filesystem; `FS.mkdirAll`, `FS.removeOp` and
  `FS.writeFileOp` model `os.MkdirAll`, `os.Remove` and
  `ioutil.WriteFile` at the granularity the tool uses them.
* `InitTask.runTask` models `(*InitTask).Run` (makeDir; writeEnvrc;
  printHints), where the text/template rendering of the constant
  `script` template is the pure function `renderScript` (parsing and
  executing that fixed template over plain string fields cannot fail).
* `mainRun` models `Main` from main.go, including the global
  `flag.Parse()` over a flag set with no registered flags.
-/

namespace Gofml

/-! ### Go `strings.Split` on a single separator character -/

def splitOnChar (sep : Char) : List Char → List (List Char)
  | [] => [[]]
  | c :: rest =>
    if c = sep then [] :: splitOnChar sep rest
    else
      match splitOnChar sep rest with
      | [] => [[c]]
      | h :: t => (c :: h) :: t

/-! ### Go `path/filepath.Base` (unix)

If the path is empty, Base returns ".".  Trailing slashes are removed;
if the remainder is empty the path consisted entirely of slashes and
Base returns "/"; otherwise everything up to the final slash is
removed. -/

def goBase (path : String) : String :=
  if path = "" then "."
  else if path.data.reverse.dropWhile (· == '/') = [] then "/"
  else ((path.data.reverse.dropWhile (· == '/')).takeWhile (· != '/')).reverse.asString

/-! ### Go `path/filepath.Clean` (unix)

Components are processed left to right; empty and "." components are
dropped; ".." removes the preceding component, stays at the root for
rooted paths, and is kept for relative paths that cannot back up any
further.  `cleanComps` keeps the accumulator reversed. -/

def dotdot (rooted : Bool) : List (List Char) → List (List Char)
  | [] => if rooted then [] else [['.', '.']]
  | a :: rest => if a = ['.', '.'] then ['.', '.'] :: a :: rest else rest

def cleanComps (rooted : Bool) : List (List Char) → List (List Char) → List (List Char)
  | [], acc => acc.reverse
  | c :: cs, acc =>
    if c = [] ∨ c = ['.'] then cleanComps rooted cs acc
    else if c = ['.', '.'] then cleanComps rooted cs (dotdot rooted acc)
    else cleanComps rooted cs (c :: acc)

def joinComps : List (List Char) → List Char
  | [] => []
  | [x] => x
  | x :: xs => x ++ '/' :: joinComps xs

def goCleanL (l : List Char) : List Char :=
  match l with
  | [] => ['.']
  | c :: _ =>
    let rooted : Bool := c == '/'
    let parts := cleanComps rooted (splitOnChar '/' l) []
    if rooted then '/' :: joinComps parts
    else if parts = [] then ['.'] else joinComps parts

def goClean (s : String) : String := (goCleanL s.data).asString

/-! ### Go `path/filepath.Join`

`strings.Join` with separator "/" over the element list starting at the
first non-empty element, then `Clean`; all elements empty yields "". -/

def joinSlash : List String → String
  | [] => ""
  | [x] => x
  | x :: xs => x ++ "/" ++ joinSlash xs

def goJoin (elems : List String) : String :=
  match elems.dropWhile (· == "") with
  | [] => ""
  | es => goClean (joinSlash es)

/-! ### The `init` flag set (init.go)

`NewInitTask` registers two string flags, `-g` (defaulting to
`getGofmlRoot()`) and `-n` (defaulting to ""), on a flag set with
`flag.ExitOnError`.  `parseInitFlags` follows `flag.FlagSet.parseOne`:
an argument that is shorter than two characters or does not start with
'-' terminates flag parsing and begins the positional arguments; "--"
terminates flag parsing; bad syntax or an undefined flag terminates the
process with exit code 2 (exit code 0 for the built-in help names). -/

structure InitFlags where
  g : String
  n : String
deriving DecidableEq

inductive InitParse where
  | ok (st : InitFlags) (positional : List String)
  | exit (code : Nat)
deriving DecidableEq

def setInitFlag (st : InitFlags) (name : List Char) (v : String) : Option InitFlags :=
  if name = ['g'] then some { st with g := v }
  else if name = ['n'] then some { st with n := v }
  else none

inductive FlagAct where
  | positional
  | endFlags
  | setNow (name : List Char) (v : String)
  | needValue (name : List Char)
  | exit (code : Nat)
deriving DecidableEq

/-- One step of `flag.FlagSet.parseOne` for the `init` flag set: decide
what the leading argument `s` does.  `.positional` ends flag parsing
(`s` is the first positional argument); `.endFlags` is the "--"
terminator; `.setNow` is a `-name=value` form of a defined flag (`g` or
`n`); `.needValue` is a defined flag whose value is the next argument;
`.exit` is a bad-syntax, help or undefined-flag process exit. -/
def classifyFlag (s : String) : FlagAct :=
  if s.data.length < 2 ∨ s.data.head? ≠ some '-' then .positional
  else if s.data = ['-', '-'] then .endFlags
  else
    let body := if s.data.take 2 = ['-', '-'] then s.data.drop 2 else s.data.drop 1
    if body.head? = some '-' ∨ body.head? = some '=' ∨ body = [] then .exit 2
    else
      let pieces := body.span (fun c => !(c == '='))
      match pieces.2 with
      | '=' :: value =>
        if pieces.1 = ['g'] ∨ pieces.1 = ['n'] then .setNow pieces.1 value.asString
        else if pieces.1 = "help".data ∨ pieces.1 = ['h'] then .exit 0
        else .exit 2
      | _ =>
        if pieces.1 = ['g'] ∨ pieces.1 = ['n'] then .needValue pieces.1
        else if pieces.1 = "help".data ∨ pieces.1 = ['h'] then .exit 0
        else .exit 2

def parseInitFlags : List String → InitFlags → InitParse
  | [], st => .ok st []
  | s :: rest, st =>
    match classifyFlag s with
    | .positional => .ok st (s :: rest)
    | .endFlags => .ok st rest
    | .exit c => .exit c
    | .setNow name v => parseInitFlags rest ((setInitFlag st name v).getD st)
    | .needValue name =>
      match rest with
      | v :: rest2 => parseInitFlags rest2 ((setInitFlag st name v).getD st)
      | [] => .exit 2

/-- A `-g` override occurs among the arguments consumed as flags: the
same traversal as `parseInitFlags`, recording only whether the `g` flag
is ever set. -/
def gGiven : List String → Bool
  | [] => false
  | s :: rest =>
    match classifyFlag s with
    | .positional => false
    | .endFlags => false
    | .exit _ => false
    | .setNow name _ => decide (name = ['g']) || gGiven rest
    | .needValue name =>
      match rest with
      | _ :: rest2 => decide (name = ['g']) || gGiven rest2
      | [] => false

/-! ### Environment and `getGofmlRoot` (init.go)

`os.Getenv` returns "" both for an unset variable and for a variable
set to the empty string; the environment is therefore modelled as a
partial map and read through `Option.getD ""`. -/

def getGofmlRoot (env : String → Option String) : String :=
  if (env "GOFMLROOT").getD "" = "" then "~/gofml" else (env "GOFMLROOT").getD ""

/-! ### `InitTask` and `NewInitTask` (init.go) -/

structure InitTask where
  GoFmlRoot : String
  ImportPath : String
  ProjectName : String
  GoFmlPath : String
  ProjectPath : String
deriving DecidableEq

inductive InitResult where
  | ok (t : InitTask)
  | err (msg : String)
  | exit (code : Nat)
deriving DecidableEq

def newInitTask (env : String → Option String) (args : List String) : InitResult :=
  match parseInitFlags args { g := getGofmlRoot env, n := "" } with
  | .exit c => .exit c
  | .ok st pos =>
    match pos with
    | [] => .err "no import path specified"
    | ip :: _ =>
      .ok { GoFmlRoot := st.g,
            ImportPath := ip,
            ProjectName := if st.n = "" then goBase ip else st.n,
            GoFmlPath := goJoin [st.g, if st.n = "" then goBase ip else st.n],
            ProjectPath :=
              goJoin [goJoin [st.g, if st.n = "" then goBase ip else st.n], "src", ip] }

/-! ### The activation script (init.go, `script` template)

`writeEnvrc` renders the constant `script` template with the task as
data; the substitution of the two string fields is the following pure
function. -/

def renderScript (t : InitTask) : String :=
  "\nexport GOFML=" ++ t.ImportPath ++ "\nexport GOPATH=" ++ t.GoFmlPath
    ++ "\nexport PATH=\"$GOPATH/bin:$PATH\"\n"

def splitLines : List Char → List (List Char)
  | [] => [[]]
  | c :: rest =>
    if c = '\n' then [] :: splitLines rest
    else
      match splitLines rest with
      | [] => [[c]]
      | h :: t => (c :: h) :: t

def countExportLines (s : String) : Nat :=
  ((splitLines s.data).filter (fun l => ("export ".data).isPrefixOf l)).length

/-! ### An in-memory filesystem

Paths are stored as their slash-separated components (a rooted path
starts with the empty component).  `dirs` is the set of existing
directories, `files` maps file paths to contents.  The three
operations model `os.MkdirAll`, `os.Remove` and `ioutil.WriteFile` at
the granularity init.go uses them; permissions are not modelled. -/

abbrev Path := List (List Char)

def toPath (s : String) : Path := splitOnChar '/' s.data

structure FS where
  dirs : List Path
  files : List (Path × String)
deriving DecidableEq

inductive FsErr where
  | notExist (p : Path)
  | notDir (p : Path)
  | isDir (p : Path)
  | notEmpty (p : Path)
deriving DecidableEq

deriving instance DecidableEq for Except

def lookupF : List (Path × String) → Path → Option String
  | [], _ => none
  | (q, c) :: rest, p => if q = p then some c else lookupF rest p

def eraseF : List (Path × String) → Path → List (Path × String)
  | [], _ => []
  | (q, c) :: rest, p => if q = p then eraseF rest p else (q, c) :: eraseF rest p

def insertDirs : List Path → List Path → List Path
  | [], ds => ds
  | q :: ps, ds => insertDirs ps (if q ∈ ds then ds else q :: ds)

def prefixesOf (p : Path) : List Path :=
  (List.range p.length).map fun i => p.take (i + 1)

def leadsTo : Path → Path → Bool
  | [], _ => true
  | _ :: _, [] => false
  | a :: qs, b :: ps => decide (a = b) && leadsTo qs ps

def hasDescendant (fs : FS) (p : Path) : Bool :=
  fs.dirs.any (fun q => leadsTo p q && decide (q ≠ p)) ||
    fs.files.any (fun e => leadsTo p e.1 && decide (e.1 ≠ p))

/-- `os.MkdirAll`: succeeds (idempotently) creating every missing
ancestor, and fails when the path or one of its ancestors exists as a
file.  On failure the filesystem is unchanged. -/
def FS.mkdirAll (p : Path) (fs : FS) : Except FsErr Unit × FS :=
  match (prefixesOf p).find? (fun q => (lookupF fs.files q).isSome) with
  | some q => (.error (.notDir q), fs)
  | none => (.ok (), { fs with dirs := insertDirs (prefixesOf p) fs.dirs })

/-- `os.Remove`: removes a file or an empty directory; fails with
`notExist` when the path does not exist, with `notEmpty` on a
non-empty directory. -/
def FS.removeOp (p : Path) (fs : FS) : Except FsErr Unit × FS :=
  if (lookupF fs.files p).isSome then
    (.ok (), { fs with files := eraseF fs.files p })
  else if p ∈ fs.dirs then
    if hasDescendant fs p then (.error (.notEmpty p), fs)
    else (.ok (), { fs with dirs := fs.dirs.filter (· ≠ p) })
  else (.error (.notExist p), fs)

/-- `ioutil.WriteFile`: overwrites the file at `p`; fails when `p` is a
directory or when the parent directory does not exist (a parent of `[]`
or `[[]]` is the working directory or the filesystem root, which always
exist).  On failure the filesystem is unchanged. -/
def FS.writeFileOp (p : Path) (content : String) (fs : FS) : Except FsErr Unit × FS :=
  if p ∈ fs.dirs then (.error (.isDir p), fs)
  else if p.dropLast = [] ∨ p.dropLast = [[]] ∨ p.dropLast ∈ fs.dirs then
    (.ok (), { fs with files := (p, content) :: eraseF fs.files p })
  else (.error (.notExist p.dropLast), fs)

/-! ### `(*InitTask).Run` (init.go)

`Run` executes `makeDir` (an `os.MkdirAll` of the project path), then
`writeEnvrc` (render the constant template — infallible for string
fields — remove any previous `.envrc` at the GoFmlPath ignoring the
removal error, then write the new file), then `printHints` (output
only).  Each failing step is returned immediately. -/

def envrcPathOf (t : InitTask) : Path := toPath (goJoin [t.GoFmlPath, ".envrc"])

def mkdirStep (t : InitTask) (fs : FS) : Except FsErr Unit × FS :=
  FS.mkdirAll (toPath t.ProjectPath) fs

def removeIgnored (p : Path) (fs : FS) : FS :=
  match FS.removeOp p fs with
  | (.ok _, fs2) => fs2
  | (.error _, _) => fs

def writeStep (t : InitTask) (fs : FS) : Except FsErr Unit × FS :=
  FS.writeFileOp (envrcPathOf t) (renderScript t) (removeIgnored (envrcPathOf t) fs)

def InitTask.runTask (t : InitTask) (fs : FS) : Except FsErr Unit × FS :=
  match mkdirStep t fs with
  | (.error e, fs1) => (.error e, fs1)
  | (.ok _, fs1) => writeStep t fs1

/-! ### `Main` (main.go)

`Main` first runs the global `flag.Parse()` over a flag set with no
registered flags: a leading flag-like argument is necessarily
undefined, so it terminates the process (exit 0 after printing usage
for the built-in help names, exit 2 otherwise); "--" only ends flag
parsing.  The dispatcher then renders usage and exits 1 when no
argument remains or the single argument is "help", looks the first
argument up in the registry (`init` and `help`), reports an
unrecognized command with usage and exit 1, reports a task-construction
failure (without usage) with exit 1, and otherwise runs the task,
reporting its error with exit 1. -/

inductive MainEv where
  | usageText
  | errFlag (arg : String)
  | errUnrecognized (name : String)
  | errParse
  | errInitFlags
  | errRun (e : FsErr)
  | helpOut
deriving DecidableEq

structure MainOut where
  stderr : List MainEv
  exitCode : Nat
  fs : FS
deriving DecidableEq

inductive MainParse where
  | stop (pos : List String)
  | exitHelp
  | exitErr (arg : String)
deriving DecidableEq

def parseMainArgs : List String → MainParse
  | [] => .stop []
  | s :: rest =>
    if s.data.length < 2 ∨ s.data.head? ≠ some '-' then .stop (s :: rest)
    else if s.data = ['-', '-'] then .stop rest
    else
      let body := if s.data.take 2 = ['-', '-'] then s.data.drop 2 else s.data.drop 1
      if body.head? = some '-' ∨ body.head? = some '=' ∨ body = [] then .exitErr s
      else
        let name := (body.span (fun c => !(c == '='))).1
        if name = "help".data ∨ name = ['h'] then .exitHelp else .exitErr s

/-- Modelled from the spec: the execution of the `help` command, whose
source file is not under src/ (main.go only registers `&helpCommand`).
The spec's CLI surface says `gofml help [command]` prints
command-specific information; it performs no filesystem writes and the
process then terminates normally. -/
def runHelp (fs : FS) : MainOut := ⟨[.helpOut], 0, fs⟩

def mainRun (env : String → Option String) (args : List String) (fs : FS) : MainOut :=
  match parseMainArgs args with
  | .exitHelp => ⟨[.usageText], 0, fs⟩
  | .exitErr s => ⟨[.errFlag s, .usageText], 2, fs⟩
  | .stop pos =>
    match pos with
    | [] => ⟨[.usageText], 1, fs⟩
    | a :: rest =>
      if a = "help" ∧ rest = [] then ⟨[.usageText], 1, fs⟩
      else if a = "init" then
        match newInitTask env rest with
        | .exit c => ⟨[.errInitFlags], c, fs⟩
        | .err _ => ⟨[.errParse], 1, fs⟩
        | .ok t =>
          match t.runTask fs with
          | (.ok _, fs2) => ⟨[], 0, fs2⟩
          | (.error e, fs2) => ⟨[.errRun e], 1, fs2⟩
      else if a = "help" then runHelp fs
      else ⟨[.errUnrecognized a, .usageText], 1, fs⟩

/-! ### Helper lemmas: strings and paths -/

theorem splitOnChar_ne_nil (sep : Char) (l : List Char) : splitOnChar sep l ≠ [] := by
  induction l with
  | nil => simp [splitOnChar]
  | cons c rest ih =>
    simp only [splitOnChar]
    split
    · simp
    · cases h : splitOnChar sep rest with
      | nil => simp
      | cons h t => simp

theorem toPath_ne_nil (s : String) : toPath s ≠ [] := splitOnChar_ne_nil '/' s.data

theorem asString_eq_empty_iff (l : List Char) : l.asString = "" ↔ l = [] := by
  constructor
  · intro h
    have : l.asString.data = ("" : String).data := by rw [h]
    simpa using this
  · intro h
    simp [h]
    rfl

theorem dotdot_mem_ne_nil (rooted : Bool) (acc : List (List Char))
    (hacc : ∀ a ∈ acc, a ≠ []) : ∀ x ∈ dotdot rooted acc, x ≠ [] := by
  cases acc with
  | nil =>
    intro x hx
    simp only [dotdot] at hx
    split at hx <;> simp_all
  | cons a rest =>
    intro x hx
    simp only [dotdot] at hx
    split at hx
    · rcases List.mem_cons.mp hx with h | h
      · subst h; simp
      · exact hacc x h
    · exact hacc x (List.mem_cons_of_mem _ hx)

theorem cleanComps_mem_ne_nil (rooted : Bool) (cs : List (List Char)) :
    ∀ acc : List (List Char), (∀ a ∈ acc, a ≠ []) →
      ∀ x ∈ cleanComps rooted cs acc, x ≠ [] := by
  induction cs with
  | nil =>
    intro acc hacc x hx
    simp only [cleanComps, List.mem_reverse] at hx
    exact hacc x hx
  | cons c cs ih =>
    intro acc hacc x hx
    simp only [cleanComps] at hx
    split at hx
    · exact ih acc hacc x hx
    · split at hx
      · exact ih _ (dotdot_mem_ne_nil rooted acc hacc) x hx
      · rename_i hc hcc
        refine ih _ ?_ x hx
        intro b hb
        rcases List.mem_cons.mp hb with hb | hb
        · subst hb
          intro hb'
          exact hc (Or.inl hb')
        · exact hacc b hb

theorem joinComps_ne_nil (x : List Char) (xs : List (List Char)) (hx : x ≠ []) :
    joinComps (x :: xs) ≠ [] := by
  cases xs with
  | nil => simpa [joinComps] using hx
  | cons y ys =>
    simp only [joinComps]
    intro h
    rcases List.append_eq_nil.mp h with ⟨h1, h2⟩
    exact List.cons_ne_nil _ _ h2

theorem goCleanL_ne_nil (l : List Char) : goCleanL l ≠ [] := by
  cases l with
  | nil => simp [goCleanL]
  | cons c rest =>
    simp only [goCleanL]
    split
    · simp
    · split
      · simp
      · rename_i hparts
        cases hp : cleanComps (c == '/') (splitOnChar '/' (c :: rest)) [] with
        | nil => exact absurd hp hparts
        | cons x xs =>
          have hx : x ≠ [] := by
            refine cleanComps_mem_ne_nil (c == '/') (splitOnChar '/' (c :: rest)) [] (by simp) x ?_
            rw [hp]; exact List.mem_cons_self _ _
          exact joinComps_ne_nil x xs hx

theorem goClean_ne_empty (s : String) : goClean s ≠ "" := by
  intro h
  exact goCleanL_ne_nil s.data ((asString_eq_empty_iff _).mp h)

theorem goBase_ne_empty (s : String) : goBase s ≠ "" := by
  unfold goBase
  split
  · simp
  · split
    · simp
    · rename_i h1
      intro h
      rw [asString_eq_empty_iff, List.reverse_eq_nil_iff] at h
      cases hh : s.data.reverse.dropWhile (· == '/') with
      | nil => exact h1 hh
      | cons b u =>
        have hb : ¬ ((b == '/') = true) := by
          have := List.head?_dropWhile_not (· == '/') s.data.reverse
          rw [hh] at this
          simpa using this
        rw [hh, List.takeWhile_cons] at h
        rw [if_pos (by simpa using hb)] at h
        exact List.cons_ne_nil _ _ h

theorem goJoin_ne_empty (elems : List String) (h : ∃ x ∈ elems, x ≠ "") :
    goJoin elems ≠ "" := by
  unfold goJoin
  cases hd : elems.dropWhile (· == "") with
  | nil =>
    exfalso
    rcases h with ⟨x, hx, hxne⟩
    have := (List.dropWhile_eq_nil_iff).mp hd x hx
    simp at this
    exact hxne this
  | cons e es => exact goClean_ne_empty _

/-! ### Helper lemmas: the filesystem model -/

theorem lookupF_eraseF_self (l : List (Path × String)) (p : Path) :
    lookupF (eraseF l p) p = none := by
  induction l with
  | nil => simp [eraseF, lookupF]
  | cons e rest ih =>
    obtain ⟨q, c⟩ := e
    simp only [eraseF]
    split
    · exact ih
    · rename_i hqp
      simp only [lookupF]
      rw [if_neg hqp]
      exact ih

theorem lookupF_eraseF_ne (l : List (Path × String)) (p q : Path) (h : q ≠ p) :
    lookupF (eraseF l p) q = lookupF l q := by
  induction l with
  | nil => simp [eraseF, lookupF]
  | cons e rest ih =>
    obtain ⟨r, c⟩ := e
    simp only [eraseF, lookupF]
    by_cases hrp : r = p
    · rw [if_pos hrp, if_neg (by rw [hrp]; exact fun he => h he.symm)]
      exact ih
    · rw [if_neg hrp]
      simp only [lookupF]
      split <;> [rfl; exact ih]

theorem eraseF_eraseF (l : List (Path × String)) (p : Path) :
    eraseF (eraseF l p) p = eraseF l p := by
  induction l with
  | nil => simp [eraseF]
  | cons e rest ih =>
    obtain ⟨q, c⟩ := e
    simp only [eraseF]
    split
    · exact ih
    · rename_i hqp
      simp only [eraseF]
      rw [if_neg hqp, ih]

theorem mem_insertDirs (ps ds : List Path) (r : Path) :
    r ∈ insertDirs ps ds ↔ r ∈ ps ∨ r ∈ ds := by
  induction ps generalizing ds with
  | nil => simp [insertDirs]
  | cons q ps ih =>
    simp only [insertDirs]
    rw [ih]
    by_cases hq : q ∈ ds
    · rw [if_pos hq]
      simp only [List.mem_cons]
      constructor
      · tauto
      · rintro (⟨h | h⟩ | h) <;> try tauto
        subst h; tauto
    · rw [if_neg hq]
      simp only [List.mem_cons]
      tauto

theorem insertDirs_eq_self (ps ds : List Path) (h : ∀ q ∈ ps, q ∈ ds) :
    insertDirs ps ds = ds := by
  induction ps with
  | nil => rfl
  | cons q ps ih =>
    simp only [insertDirs]
    rw [if_pos (h q (List.mem_cons_self _ _))]
    exact ih fun r hr => h r (List.mem_cons_of_mem _ hr)

theorem mem_prefixesOf (p q : Path) :
    q ∈ prefixesOf p ↔ ∃ i, i < p.length ∧ q = p.take (i + 1) := by
  simp [prefixesOf, List.mem_map, List.mem_range, eq_comm]

theorem self_mem_prefixesOf (p : Path) (h : p ≠ []) : p ∈ prefixesOf p := by
  rw [mem_prefixesOf]
  refine ⟨p.length - 1, ?_, ?_⟩
  · have := List.length_pos.mpr h
    omega
  · have hl : p.length - 1 + 1 = p.length := by
      have := List.length_pos.mpr h
      omega
    rw [hl, List.take_length]

theorem ne_nil_of_mem_prefixesOf (p q : Path) (h : q ∈ prefixesOf p) : q ≠ [] := by
  rw [mem_prefixesOf] at h
  obtain ⟨i, hi, hq⟩ := h
  subst hq
  intro hnil
  rcases List.take_eq_nil_iff.mp hnil with h0 | h0
  · exact Nat.succ_ne_zero i h0
  · rw [h0] at hi
    simp at hi

theorem leadsTo_take (p : Path) (n : Nat) : leadsTo (p.take n) p = true := by
  induction p generalizing n with
  | nil => simp [leadsTo]
  | cons a ps ih =>
    cases n with
    | zero => simp [leadsTo]
    | succ m =>
      simp only [List.take_succ_cons, leadsTo]
      simp [ih]

theorem leadsTo_of_mem_prefixesOf (p q : Path) (h : q ∈ prefixesOf p) :
    leadsTo q p = true := by
  rw [mem_prefixesOf] at h
  obtain ⟨i, _, hq⟩ := h
  subst hq
  exact leadsTo_take p (i + 1)

/-! ### Inversion lemmas for the filesystem operations -/

theorem mkdirAll_ok (p : Path) (fs fs1 : FS) (u : Unit)
    (h : FS.mkdirAll p fs = (.ok u, fs1)) :
    (∀ q ∈ prefixesOf p, lookupF fs.files q = none) ∧
      fs1 = ⟨insertDirs (prefixesOf p) fs.dirs, fs.files⟩ := by
  unfold FS.mkdirAll at h
  cases hf : (prefixesOf p).find? (fun q => (lookupF fs.files q).isSome) with
  | some q => rw [hf] at h; simp at h
  | none =>
    rw [hf] at h
    simp only [Prod.mk.injEq] at h
    refine ⟨?_, h.2.symm⟩
    intro q hq
    have := List.find?_eq_none.mp hf q hq
    simpa using this

theorem mkdirAll_of (p : Path) (fs : FS)
    (h : ∀ q ∈ prefixesOf p, lookupF fs.files q = none) :
    FS.mkdirAll p fs = (.ok (), ⟨insertDirs (prefixesOf p) fs.dirs, fs.files⟩) := by
  unfold FS.mkdirAll
  have hf : (prefixesOf p).find? (fun q => (lookupF fs.files q).isSome) = none := by
    rw [List.find?_eq_none]
    intro q hq
    simp [h q hq]
  rw [hf]

theorem mkdirAll_error_snd (p : Path) (fs : FS) (e : FsErr)
    (h : (FS.mkdirAll p fs).1 = .error e) : FS.mkdirAll p fs = (.error e, fs) := by
  unfold FS.mkdirAll at h ⊢
  cases hf : (prefixesOf p).find? (fun q => (lookupF fs.files q).isSome) with
  | some q => rw [hf] at h; simp only at h; rw [← h]
  | none => rw [hf] at h; simp at h

theorem mkdirAll_files (p : Path) (fs : FS) :
    (FS.mkdirAll p fs).2.files = fs.files := by
  unfold FS.mkdirAll
  cases hf : (prefixesOf p).find? (fun q => (lookupF fs.files q).isSome) <;> simp

theorem writeFileOp_ok (p : Path) (c : String) (fs fs2 : FS) (u : Unit)
    (h : FS.writeFileOp p c fs = (.ok u, fs2)) :
    p ∉ fs.dirs ∧ (p.dropLast = [] ∨ p.dropLast = [[]] ∨ p.dropLast ∈ fs.dirs) ∧
      fs2 = ⟨fs.dirs, (p, c) :: eraseF fs.files p⟩ := by
  unfold FS.writeFileOp at h
  split at h
  · simp at h
  · split at h
    · rename_i h1 h2
      simp only [Prod.mk.injEq] at h
      exact ⟨h1, h2, h.2.symm⟩
    · simp at h

theorem writeFileOp_of (p : Path) (c : String) (fs : FS) (h1 : p ∉ fs.dirs)
    (h2 : p.dropLast = [] ∨ p.dropLast = [[]] ∨ p.dropLast ∈ fs.dirs) :
    FS.writeFileOp p c fs = (.ok (), ⟨fs.dirs, (p, c) :: eraseF fs.files p⟩) := by
  unfold FS.writeFileOp
  rw [if_neg h1, if_pos h2]

theorem removeOp_file (p : Path) (fs : FS) (h : (lookupF fs.files p).isSome = true) :
    FS.removeOp p fs = (.ok (), ⟨fs.dirs, eraseF fs.files p⟩) := by
  unfold FS.removeOp
  rw [if_pos h]

theorem removeOp_dir_busy (p : Path) (fs : FS) (h1 : ¬ (lookupF fs.files p).isSome = true)
    (h2 : p ∈ fs.dirs) (h3 : hasDescendant fs p = true) :
    FS.removeOp p fs = (.error (.notEmpty p), fs) := by
  unfold FS.removeOp
  rw [if_neg h1, if_pos h2, if_pos h3]

theorem removeOp_dir_free (p : Path) (fs : FS) (h1 : ¬ (lookupF fs.files p).isSome = true)
    (h2 : p ∈ fs.dirs) (h3 : ¬ hasDescendant fs p = true) :
    FS.removeOp p fs = (.ok (), ⟨fs.dirs.filter (· ≠ p), fs.files⟩) := by
  unfold FS.removeOp
  rw [if_neg h1, if_pos h2, if_neg h3]

theorem removeOp_notExist (p : Path) (fs : FS) (h1 : ¬ (lookupF fs.files p).isSome = true)
    (h2 : p ∉ fs.dirs) : FS.removeOp p fs = (.error (.notExist p), fs) := by
  unfold FS.removeOp
  rw [if_neg h1, if_neg h2]

theorem removeIgnored_of_op_ok (p : Path) (fs fs2 : FS)
    (h : FS.removeOp p fs = (.ok (), fs2)) : removeIgnored p fs = fs2 := by
  unfold removeIgnored
  rw [h]

theorem removeIgnored_of_op_error (p : Path) (fs fs2 : FS) (e : FsErr)
    (h : FS.removeOp p fs = (.error e, fs2)) : removeIgnored p fs = fs := by
  unfold removeIgnored
  rw [h]

theorem removeIgnored_dirs (p : Path) (fs : FS) :
    (removeIgnored p fs).dirs = fs.dirs ∨
      (removeIgnored p fs).dirs = fs.dirs.filter (· ≠ p) := by
  by_cases h1 : (lookupF fs.files p).isSome = true
  · rw [removeIgnored_of_op_ok p fs _ (removeOp_file p fs h1)]
    exact Or.inl rfl
  · by_cases h2 : p ∈ fs.dirs
    · by_cases h3 : hasDescendant fs p = true
      · rw [removeIgnored_of_op_error p fs _ _ (removeOp_dir_busy p fs h1 h2 h3)]
        exact Or.inl rfl
      · rw [removeIgnored_of_op_ok p fs _ (removeOp_dir_free p fs h1 h2 h3)]
        exact Or.inr rfl
    · rw [removeIgnored_of_op_error p fs _ _ (removeOp_notExist p fs h1 h2)]
      exact Or.inl rfl

theorem removeIgnored_files (p : Path) (fs : FS) :
    (removeIgnored p fs).files = fs.files ∨
      (removeIgnored p fs).files = eraseF fs.files p := by
  by_cases h1 : (lookupF fs.files p).isSome = true
  · rw [removeIgnored_of_op_ok p fs _ (removeOp_file p fs h1)]
    exact Or.inr rfl
  · by_cases h2 : p ∈ fs.dirs
    · by_cases h3 : hasDescendant fs p = true
      · rw [removeIgnored_of_op_error p fs _ _ (removeOp_dir_busy p fs h1 h2 h3)]
        exact Or.inl rfl
      · rw [removeIgnored_of_op_ok p fs _ (removeOp_dir_free p fs h1 h2 h3)]
        exact Or.inl rfl
    · rw [removeIgnored_of_op_error p fs _ _ (removeOp_notExist p fs h1 h2)]
      exact Or.inl rfl

theorem removeIgnored_dirs_of_descendant (p : Path) (fs : FS)
    (h : hasDescendant fs p = true) : (removeIgnored p fs).dirs = fs.dirs := by
  by_cases h1 : (lookupF fs.files p).isSome = true
  · rw [removeIgnored_of_op_ok p fs _ (removeOp_file p fs h1)]
  · by_cases h2 : p ∈ fs.dirs
    · rw [removeIgnored_of_op_error p fs _ _ (removeOp_dir_busy p fs h1 h2 h)]
    · rw [removeIgnored_of_op_error p fs _ _ (removeOp_notExist p fs h1 h2)]

/-! ### Unfolding lemmas for `runTask` -/

theorem runTask_of_mkdir_error (t : InitTask) (fs fs1 : FS) (e : FsErr)
    (h : mkdirStep t fs = (.error e, fs1)) : t.runTask fs = (.error e, fs1) := by
  unfold InitTask.runTask
  rw [h]

theorem runTask_of_mkdir_ok (t : InitTask) (fs fs1 : FS) (u : Unit)
    (h : mkdirStep t fs = (.ok u, fs1)) : t.runTask fs = writeStep t fs1 := by
  unfold InitTask.runTask
  rw [h]

theorem runTask_error_cases (t : InitTask) (fs fs2 : FS) (e : FsErr)
    (h : t.runTask fs = (.error e, fs2)) :
    mkdirStep t fs = (.error e, fs2) ∨
      ∃ fs1, mkdirStep t fs = (.ok (), fs1) ∧ writeStep t fs1 = (.error e, fs2) := by
  rcases hm : mkdirStep t fs with ⟨r1, fs1⟩
  cases r1 with
  | error e1 =>
    left
    have heq : ((Except.error e1 : Except FsErr Unit), fs1) = (Except.error e, fs2) := by
      rw [← runTask_of_mkdir_error t fs fs1 e1 hm, h]
    exact heq
  | ok u =>
    right
    refine ⟨fs1, rfl, ?_⟩
    rw [← runTask_of_mkdir_ok t fs fs1 u hm, h]

theorem runTask_ok_cases (t : InitTask) (fs fs2 : FS) (u : Unit)
    (h : t.runTask fs = (.ok u, fs2)) :
    ∃ fs1, mkdirStep t fs = (.ok (), fs1) ∧ writeStep t fs1 = (.ok (), fs2) := by
  rcases hm : mkdirStep t fs with ⟨r1, fs1⟩
  cases r1 with
  | error e1 =>
    have heq : ((Except.error e1 : Except FsErr Unit), fs1) = (Except.ok u, fs2) := by
      rw [← runTask_of_mkdir_error t fs fs1 e1 hm, h]
    simp at heq
  | ok u1 =>
    refine ⟨fs1, rfl, ?_⟩
    rw [← runTask_of_mkdir_ok t fs fs1 u1 hm, h]

/-! ### Concrete environments and filesystems used by witnesses -/

def envNone : String → Option String := fun _ => none

def envSetEmpty : String → Option String :=
  fun k => if k = "GOFMLROOT" then some "" else none

def envCustom : String → Option String :=
  fun k => if k = "GOFMLROOT" then some "/custom" else none

def fsEmpty : FS := ⟨[], []⟩

/-! ### The claims -/

/-- Claim C1: for every import path and every combination of explicit
name/root overrides, the task built by `newInitTask` has its derived
workspace path `GoFmlPath` equal to the root joined with the project
name, and its derived project path equal to the workspace path joined
with `src` and the import path. -/
theorem C1_derived_paths (env : String → Option String) (args : List String)
    (t : InitTask) (h : newInitTask env args = .ok t) :
    t.GoFmlPath = goJoin [t.GoFmlRoot, t.ProjectName] ∧
      t.ProjectPath = goJoin [t.GoFmlPath, "src", t.ImportPath] := by
  unfold newInitTask at h
  cases hp : parseInitFlags args { g := getGofmlRoot env, n := "" } with
  | exit c => rw [hp] at h; simp at h
  | ok st pos =>
    rw [hp] at h
    cases pos with
    | nil => simp at h
    | cons ip rest =>
      simp only [InitResult.ok.injEq] at h
      subst h
      exact ⟨rfl, rfl⟩

theorem C1_derived_paths_witness :
    newInitTask envNone ["-g", "/r", "-n", "nm", "a/b"] =
        .ok ⟨"/r", "a/b", "nm", "/r/nm", "/r/nm/src/a/b"⟩ ∧
      ((⟨"/r", "a/b", "nm", "/r/nm", "/r/nm/src/a/b"⟩ : InitTask).GoFmlPath =
          goJoin [("/r" : String), "nm"] ∧
        (⟨"/r", "a/b", "nm", "/r/nm", "/r/nm/src/a/b"⟩ : InitTask).ProjectPath =
          goJoin [("/r/nm" : String), "src", "a/b"]) :=
  ⟨by decide, C1_derived_paths envNone ["-g", "/r", "-n", "nm", "a/b"] _ (by decide)⟩

theorem setInitFlag_getD_g (st : InitFlags) (name : List Char) (v : String)
    (h : name ≠ ['g']) : ((setInitFlag st name v).getD st).g = st.g := by
  unfold setInitFlag
  rw [if_neg h]
  split
  · rfl
  · rfl

theorem parseInitFlags_cons (s : String) (rest : List String) (st : InitFlags) :
    parseInitFlags (s :: rest) st =
      match classifyFlag s with
      | .positional => .ok st (s :: rest)
      | .endFlags => .ok st rest
      | .exit c => .exit c
      | .setNow name v => parseInitFlags rest ((setInitFlag st name v).getD st)
      | .needValue name =>
        match rest with
        | v :: rest2 => parseInitFlags rest2 ((setInitFlag st name v).getD st)
        | [] => .exit 2 := by
  rw [parseInitFlags.eq_def]

theorem gGiven_cons (s : String) (rest : List String) :
    gGiven (s :: rest) =
      match classifyFlag s with
      | .positional => false
      | .endFlags => false
      | .exit _ => false
      | .setNow name _ => decide (name = ['g']) || gGiven rest
      | .needValue name =>
        match rest with
        | _ :: rest2 => decide (name = ['g']) || gGiven rest2
        | [] => false := by
  rw [gGiven.eq_def]

/-- If no `-g` flag occurs among the arguments, flag parsing leaves the
`g` field at its initial (default) value. -/
theorem parse_g_unchanged_bounded :
    ∀ n : Nat, ∀ args : List String, args.length ≤ n →
      ∀ st st2 pos, parseInitFlags args st = .ok st2 pos → gGiven args = false →
        st2.g = st.g := by
  intro n
  induction n with
  | zero =>
    intro args hlen st st2 pos hp hg
    have hargs : args = [] := List.eq_nil_of_length_eq_zero (Nat.le_zero.mp hlen)
    subst hargs
    have hp2 : (InitParse.ok st [] : InitParse) = .ok st2 pos := hp
    simp only [InitParse.ok.injEq] at hp2
    rw [← hp2.1]
  | succ n ih =>
    intro args hlen st st2 pos hp hg
    cases args with
    | nil =>
      have hp2 : (InitParse.ok st [] : InitParse) = .ok st2 pos := hp
      simp only [InitParse.ok.injEq] at hp2
      rw [← hp2.1]
    | cons s rest =>
      rw [parseInitFlags_cons] at hp
      rw [gGiven_cons] at hg
      cases hc : classifyFlag s with
      | positional =>
        simp only [hc, InitParse.ok.injEq] at hp
        rw [← hp.1]
      | endFlags =>
        simp only [hc, InitParse.ok.injEq] at hp
        rw [← hp.1]
      | exit c =>
        simp only [hc] at hp
        exact absurd hp (by simp)
      | setNow name v =>
        simp only [hc] at hp hg
        rw [Bool.or_eq_false_iff] at hg
        obtain ⟨hg1, hg2⟩ := hg
        rw [decide_eq_false_iff_not] at hg1
        have hlen2 : rest.length ≤ n := by
          simp only [List.length_cons] at hlen
          omega
        rw [ih rest hlen2 _ st2 pos hp hg2, setInitFlag_getD_g st name v hg1]
      | needValue name =>
        cases rest with
        | nil =>
          simp only [hc] at hp
          exact absurd hp (by simp)
        | cons v rest2 =>
          simp only [hc] at hp hg
          rw [Bool.or_eq_false_iff] at hg
          obtain ⟨hg1, hg2⟩ := hg
          rw [decide_eq_false_iff_not] at hg1
          have hlen3 : rest2.length ≤ n := by
            simp only [List.length_cons] at hlen
            omega
          rw [ih rest2 hlen3 _ st2 pos hp hg2, setInitFlag_getD_g st name v hg1]

/-- Claim C2 (amended): when the `-g` override is not given, the
workspace root used by `newInitTask` defaults to the value of the
environment variable GOFMLROOT, and to the fixed fallback `~/gofml`
when that variable is unset or set to the empty string (`os.Getenv`
cannot distinguish the two). -/
theorem C2_root_default (env : String → Option String) :
    ((env "GOFMLROOT" = none ∨ env "GOFMLROOT" = some "") →
        getGofmlRoot env = "~/gofml") ∧
      (∀ v, env "GOFMLROOT" = some v → v ≠ "" → getGofmlRoot env = v) ∧
      (∀ args t, gGiven args = false →
        newInitTask env args = .ok t → t.GoFmlRoot = getGofmlRoot env) := by
  refine ⟨?_, ?_, ?_⟩
  · rintro (h | h) <;> simp [getGofmlRoot, h]
  · intro v hv hne
    simp [getGofmlRoot, hv, hne]
  · intro args t hg h
    unfold newInitTask at h
    cases hp : parseInitFlags args { g := getGofmlRoot env, n := "" } with
    | exit c =>
      rw [hp] at h
      simp at h
    | ok st pos =>
      rw [hp] at h
      cases pos with
      | nil => simp at h
      | cons ip rest =>
        simp only [InitResult.ok.injEq] at h
        subst h
        show st.g = getGofmlRoot env
        exact parse_g_unchanged_bounded args.length args (Nat.le_refl _) _ st
          (ip :: rest) hp hg

theorem C2_root_default_witness :
    getGofmlRoot envCustom = "/custom" ∧
      (⟨"/custom", "p", "nm", "/custom/nm", "/custom/nm/src/p"⟩ : InitTask).GoFmlRoot =
        getGofmlRoot envCustom :=
  ⟨(C2_root_default envCustom).2.1 "/custom" (by decide) (by decide),
    (C2_root_default envCustom).2.2 ["-n", "nm", "p"] _ (by decide) (by decide)⟩

/-- Claim C2, counterexample to the claim as stated: with GOFMLROOT set
to the empty string the variable is set, yet the root falls back to the
fixed path `~/gofml` instead of the variable's value — so the fallback
is not used "only when that environment variable is unset". -/
theorem C2_cx_set_empty :
    envSetEmpty "GOFMLROOT" ≠ none ∧
      getGofmlRoot envSetEmpty = "~/gofml" ∧
      getGofmlRoot envSetEmpty ≠ (envSetEmpty "GOFMLROOT").getD "" := by
  decide

/-- Claim C3: for every import path that survives flag parsing as the
first positional argument, when the `-n` override is absent (its parsed
value is the empty default), the derived project name is
`filepath.Base` of the import path — its final path component. -/
theorem C3_default_name (env : String → Option String) (args : List String)
    (st : InitFlags) (ip : String) (rest : List String)
    (hp : parseInitFlags args { g := getGofmlRoot env, n := "" } = .ok st (ip :: rest))
    (hn : st.n = "") :
    ∃ t, newInitTask env args = .ok t ∧ t.ProjectName = goBase ip := by
  unfold newInitTask
  rw [hp]
  exact ⟨_, rfl, by simp [hn]⟩

theorem C3_default_name_witness :
    ∃ t, newInitTask envNone ["example.com/foo"] = .ok t ∧
      t.ProjectName = goBase "example.com/foo" :=
  C3_default_name envNone ["example.com/foo"] ⟨"~/gofml", ""⟩ "example.com/foo" []
    (by decide) (by decide)

/-- Claim C9: whenever `newInitTask` returns a task, the derived fields
(project name, workspace path, project path) are non-empty, and a task
construction failure (an error return, as opposed to the process exit
performed by the flag package) happens exactly when the parsed
positional argument list is empty — the import path is missing. -/
theorem C9_nonempty_fields (env : String → Option String) (args : List String) :
    (∀ t, newInitTask env args = .ok t →
        t.ProjectName ≠ "" ∧ t.GoFmlPath ≠ "" ∧ t.ProjectPath ≠ "") ∧
      (∀ m, newInitTask env args = .err m →
        ∃ st, parseInitFlags args { g := getGofmlRoot env, n := "" } = .ok st []) := by
  constructor
  · intro t h
    unfold newInitTask at h
    cases hp : parseInitFlags args { g := getGofmlRoot env, n := "" } with
    | exit c => rw [hp] at h; simp at h
    | ok st pos =>
      rw [hp] at h
      cases pos with
      | nil => simp at h
      | cons ip rest =>
        simp only [InitResult.ok.injEq] at h
        subst h
        refine ⟨?_, ?_, ?_⟩
        · by_cases hn : st.n = ""
          · simp only [hn, if_pos rfl]
            exact goBase_ne_empty ip
          · simp only [if_neg hn]
            exact hn
        · refine goJoin_ne_empty _ ⟨if st.n = "" then goBase ip else st.n, ?_, ?_⟩
          · exact List.mem_cons_of_mem _ (List.mem_cons_self _ _)
          · split
            · exact goBase_ne_empty ip
            · assumption
        · refine goJoin_ne_empty _ ⟨"src", ?_, ?_⟩
          · exact List.mem_cons_of_mem _ (List.mem_cons_self _ _)
          · decide
  · intro m h
    unfold newInitTask at h
    cases hp : parseInitFlags args { g := getGofmlRoot env, n := "" } with
    | exit c => rw [hp] at h; simp at h
    | ok st pos =>
      rw [hp] at h
      cases pos with
      | nil => exact ⟨st, rfl⟩
      | cons ip rest =>
        exact absurd h (by simp)

theorem C9_nonempty_fields_witness :
    ((⟨"~/gofml", "p", "p", "~/gofml/p", "~/gofml/p/src/p"⟩ : InitTask).ProjectName ≠ "" ∧
        (⟨"~/gofml", "p", "p", "~/gofml/p", "~/gofml/p/src/p"⟩ : InitTask).GoFmlPath ≠ "" ∧
        (⟨"~/gofml", "p", "p", "~/gofml/p", "~/gofml/p/src/p"⟩ : InitTask).ProjectPath ≠ "") ∧
      (∃ st, parseInitFlags [] { g := getGofmlRoot envNone, n := "" } = .ok st []) :=
  ⟨(C9_nonempty_fields envNone ["p"]).1 _ (by decide),
    (C9_nonempty_fields envNone []).2 "no import path specified" (by decide)⟩

/-- Claim C10: passing `-n` with an empty-string value yields exactly
the same result as omitting `-n` entirely; the empty string is the
unset sentinel for the project-name override. -/
theorem C10_empty_n_override (env : String → Option String) (rest : List String) :
    newInitTask env ("-n" :: "" :: rest) = newInitTask env rest := rfl

/-- Claim C5 (amended): invoking init with no positional import path
makes task construction fail (`newInitTask` returns an error and no
task), and the dispatcher reports the parse failure on standard error
and exits with code 1, performing no filesystem writes — but it does
not render the usage text on this path. -/
theorem C5_missing_import_path (env : String → Option String) (fs : FS)
    (rest : List String) (st : InitFlags)
    (hp : parseInitFlags rest { g := getGofmlRoot env, n := "" } = .ok st []) :
    newInitTask env rest = .err "no import path specified" ∧
      mainRun env ("init" :: rest) fs = ⟨[.errParse], 1, fs⟩ := by
  have hn : newInitTask env rest = .err "no import path specified" := by
    unfold newInitTask
    rw [hp]
  refine ⟨hn, ?_⟩
  have hpm : parseMainArgs ("init" :: rest) = .stop ("init" :: rest) := by
    rw [parseMainArgs.eq_def]
    dsimp only
    rw [if_pos (by decide)]
  unfold mainRun
  simp only [hpm]
  rw [if_neg (by rintro ⟨h, _⟩; exact absurd h (by decide))]
  rw [if_pos trivial, hn]

theorem C5_missing_import_path_witness :
    newInitTask envNone [] = .err "no import path specified" ∧
      mainRun envNone ["init"] fsEmpty = ⟨[.errParse], 1, fsEmpty⟩ :=
  C5_missing_import_path envNone fsEmpty [] ⟨"~/gofml", ""⟩ (by decide)

/-- Claim C5, counterexample to the claim as stated: on the
missing-import-path path the dispatcher prints only the
failed-to-parse error line; the usage text is not rendered. -/
theorem C5_cx_no_usage :
    mainRun envNone ["init"] fsEmpty = ⟨[.errParse], 1, fsEmpty⟩ ∧
      MainEv.usageText ∉ (mainRun envNone ["init"] fsEmpty).stderr := by
  decide

/-- Claim C8 (amended): for every argument vector whose first argument
is not flag-like (so the global flag parse passes it through) and is
not a registered command name (`init`, `help`), the dispatcher prints
an error naming the unrecognized command, renders usage, exits with
code 1, and leaves the filesystem untouched. -/
theorem C8_unknown_command (env : String → Option String) (fs : FS) (a : String)
    (rest : List String) (hflag : a.data.length < 2 ∨ a.data.head? ≠ some '-')
    (hinit : a ≠ "init") (hhelp : a ≠ "help") :
    mainRun env (a :: rest) fs = ⟨[.errUnrecognized a, .usageText], 1, fs⟩ := by
  have hpm : parseMainArgs (a :: rest) = .stop (a :: rest) := by
    rw [parseMainArgs.eq_def]
    dsimp only
    rw [if_pos hflag]
  unfold mainRun
  simp only [hpm]
  rw [if_neg (by rintro ⟨h, _⟩; exact hhelp h), if_neg hinit, if_neg hhelp]

theorem C8_unknown_command_witness :
    mainRun envNone ["bogus"] fsEmpty =
      ⟨[.errUnrecognized "bogus", .usageText], 1, fsEmpty⟩ :=
  C8_unknown_command envNone fsEmpty "bogus" [] (by decide) (by decide) (by decide)

/-- Claim C8, counterexample to the claim as stated: the argument
vector `["-h"]` has a first argument that is not a registered command
name, yet the process prints the usage text and exits with code 0 (the
flag package treats `-h` as a help request), with no error naming an
unrecognized command. -/
theorem C8_cx_dash_h :
    ("-h" ≠ "init" ∧ "-h" ≠ "help") ∧
      mainRun envNone ["-h"] fsEmpty = ⟨[.usageText], 0, fsEmpty⟩ := by
  decide

/-- Claim C6: during Run, every filesystem failure aborts the task and
is reported to the caller: a directory-creation failure is returned
with the filesystem untouched (the write step is not executed), a
write failure is returned together with the partially-updated
filesystem (no rollback of the created directories or the removal),
every reported error originates in the mkdir step or the write step,
and the only failure that is swallowed is the removal of the previous
script when it does not exist. -/
theorem C6_error_propagation (t : InitTask) (fs : FS) :
    (∀ e, (mkdirStep t fs).1 = .error e → t.runTask fs = (.error e, fs)) ∧
      (∀ fs1 e, mkdirStep t fs = (.ok (), fs1) → (writeStep t fs1).1 = .error e →
        t.runTask fs = (.error e, (writeStep t fs1).2)) ∧
      (∀ e fs2, t.runTask fs = (.error e, fs2) →
        (mkdirStep t fs).1 = .error e ∨
          ∃ fs1, mkdirStep t fs = (.ok (), fs1) ∧ (writeStep t fs1).1 = .error e) ∧
      (∀ fs1 : FS, lookupF fs1.files (envrcPathOf t) = none →
        envrcPathOf t ∉ fs1.dirs →
        (FS.removeOp (envrcPathOf t) fs1).1 = .error (.notExist (envrcPathOf t)) ∧
          removeIgnored (envrcPathOf t) fs1 = fs1) := by
  refine ⟨?_, ?_, ?_, ?_⟩
  · intro e h
    exact runTask_of_mkdir_error t fs fs e (mkdirAll_error_snd _ fs e h)
  · intro fs1 e h1 h2
    rw [runTask_of_mkdir_ok t fs fs1 () h1]
    exact Prod.ext h2 rfl
  · intro e fs2 h
    rcases runTask_error_cases t fs fs2 e h with h1 | ⟨fs1, h1, h2⟩
    · left
      rw [h1]
    · right
      exact ⟨fs1, h1, by rw [h2]⟩
  · intro fs1 hfile hdir
    have h1 : ¬ (lookupF fs1.files (envrcPathOf t)).isSome = true := by simp [hfile]
    have hop := removeOp_notExist (envrcPathOf t) fs1 h1 hdir
    exact ⟨by rw [hop], removeIgnored_of_op_error _ _ _ _ hop⟩

def taskW : InitTask := ⟨"/r", "a", "a", "/r/a", "/r/a/src/a"⟩

def fsMkdirFail : FS := ⟨[], [([[], ['r']], "x")]⟩

def fsWriteFail : FS :=
  ⟨[toPath "/r/a/.envrc", toPath "/r/a/.envrc/sub"], []⟩

theorem splitLines_append (xs ys : List Char) (h : '\n' ∉ xs) :
    splitLines (xs ++ '\n' :: ys) = xs :: splitLines ys := by
  induction xs with
  | nil => simp [splitLines]
  | cons c cs ih =>
    rw [List.cons_append, splitLines.eq_def]
    dsimp only
    rw [if_neg (by intro hc; exact h (hc ▸ List.mem_cons_self c cs))]
    rw [ih (fun hm => h (List.mem_cons_of_mem _ hm))]

theorem isPrefixOf_append_self (a b : List Char) : a.isPrefixOf (a ++ b) = true := by
  induction a with
  | nil => simp [List.isPrefixOf]
  | cons c cs ih => simp [List.isPrefixOf, ih]

theorem renderScript_data (t : InitTask) :
    (renderScript t).data =
      '\n' :: (("export GOFML=" : String).data ++ (t.ImportPath.data ++
        ('\n' :: (("export GOPATH=" : String).data ++ (t.GoFmlPath.data ++
          ('\n' :: (("export PATH=\"$GOPATH/bin:$PATH\"" : String).data ++ ['\n']))))))) := by
  have e1 : ("\nexport GOFML=" : String).data =
      '\n' :: ("export GOFML=" : String).data := by decide
  have e2 : ("\nexport GOPATH=" : String).data =
      '\n' :: ("export GOPATH=" : String).data := by decide
  have e3 : ("\nexport PATH=\"$GOPATH/bin:$PATH\"\n" : String).data =
      '\n' :: (("export PATH=\"$GOPATH/bin:$PATH\"" : String).data ++ ['\n']) := by decide
  simp only [renderScript, String.data_append, e1, e2, e3, List.cons_append,
    List.append_assoc, List.nil_append]

theorem splitLines_renderScript (t : InitTask)
    (h1 : ¬ '\n' ∈ t.ImportPath.data) (h2 : ¬ '\n' ∈ t.GoFmlPath.data) :
    splitLines (renderScript t).data =
      [[], ("export GOFML=" ++ t.ImportPath).data,
        ("export GOPATH=" ++ t.GoFmlPath).data,
        ("export PATH=\"$GOPATH/bin:$PATH\"" : String).data, []] := by
  rw [renderScript_data]
  have hn1 : '\n' ∉ ("export GOFML=" : String).data ++ t.ImportPath.data := by
    intro hm
    rcases List.mem_append.mp hm with hm | hm
    · exact absurd hm (by decide)
    · exact h1 hm
  have hn2 : '\n' ∉ ("export GOPATH=" : String).data ++ t.GoFmlPath.data := by
    intro hm
    rcases List.mem_append.mp hm with hm | hm
    · exact absurd hm (by decide)
    · exact h2 hm
  have hs0 : splitLines ('\n' :: (("export GOFML=" : String).data ++ (t.ImportPath.data
      ++ ('\n' :: (("export GOPATH=" : String).data ++ (t.GoFmlPath.data
      ++ ('\n' :: (("export PATH=\"$GOPATH/bin:$PATH\"" : String).data ++ ['\n'])))))))) =
      [] :: splitLines (("export GOFML=" : String).data ++ (t.ImportPath.data
      ++ ('\n' :: (("export GOPATH=" : String).data ++ (t.GoFmlPath.data
      ++ ('\n' :: (("export PATH=\"$GOPATH/bin:$PATH\"" : String).data ++ ['\n']))))))) := by
    simp [splitLines]
  rw [hs0]
  rw [show ("export GOFML=" : String).data ++ (t.ImportPath.data
      ++ ('\n' :: (("export GOPATH=" : String).data ++ (t.GoFmlPath.data
      ++ ('\n' :: (("export PATH=\"$GOPATH/bin:$PATH\"" : String).data ++ ['\n'])))))) =
      (("export GOFML=" : String).data ++ t.ImportPath.data)
      ++ ('\n' :: (("export GOPATH=" : String).data ++ (t.GoFmlPath.data
      ++ ('\n' :: (("export PATH=\"$GOPATH/bin:$PATH\"" : String).data ++ ['\n'])))))
    from by rw [List.append_assoc]]
  rw [splitLines_append _ _ hn1]
  rw [show ("export GOPATH=" : String).data ++ (t.GoFmlPath.data
      ++ ('\n' :: (("export PATH=\"$GOPATH/bin:$PATH\"" : String).data ++ ['\n']))) =
      (("export GOPATH=" : String).data ++ t.GoFmlPath.data)
      ++ ('\n' :: (("export PATH=\"$GOPATH/bin:$PATH\"" : String).data ++ ['\n']))
    from by rw [List.append_assoc]]
  rw [splitLines_append _ _ hn2]
  rw [show (("export PATH=\"$GOPATH/bin:$PATH\"" : String).data ++ ['\n']) =
      (("export PATH=\"$GOPATH/bin:$PATH\"" : String).data ++ '\n' :: [])
    from rfl]
  rw [splitLines_append _ _ (by decide)]
  simp [splitLines, String.data_append]

/-- Claim C4 (amended): every successful run writes exactly one file,
named `.envrc`, at the workspace path (`GoFmlPath`), overwriting any
previous content — unconditionally; provided the import path and the
workspace path contain no newline character, its content consists of
exactly three export lines — the GOFML identifier set to the import
path, GOPATH set to the workspace path, and PATH prefixed with the
workspace's bin directory. -/
theorem C4_envrc_write (t : InitTask) (fs fs2 : FS)
    (hrun : t.runTask fs = (.ok (), fs2)) :
    lookupF fs2.files (envrcPathOf t) = some (renderScript t) ∧
      (∀ q, q ≠ envrcPathOf t → lookupF fs2.files q = lookupF fs.files q) ∧
      (¬ '\n' ∈ t.ImportPath.data → ¬ '\n' ∈ t.GoFmlPath.data →
        splitLines (renderScript t).data =
          [[], ("export GOFML=" ++ t.ImportPath).data,
            ("export GOPATH=" ++ t.GoFmlPath).data,
            ("export PATH=\"$GOPATH/bin:$PATH\"" : String).data, []] ∧
        countExportLines (renderScript t) = 3) := by
  obtain ⟨fs1, hm, hw⟩ := runTask_ok_cases t fs fs2 () hrun
  obtain ⟨hfind, hfs1⟩ := mkdirAll_ok (toPath t.ProjectPath) fs fs1 () hm
  obtain ⟨hnd, hpar, hfs2⟩ :=
    writeFileOp_ok (envrcPathOf t) (renderScript t)
      (removeIgnored (envrcPathOf t) fs1) fs2 () hw
  have hfiles1 : fs1.files = fs.files := by rw [hfs1]
  refine ⟨?_, ?_, ?_⟩
  · rw [hfs2]
    simp [lookupF]
  · intro q hq
    rw [hfs2]
    show lookupF ((envrcPathOf t, renderScript t) ::
      eraseF (removeIgnored (envrcPathOf t) fs1).files (envrcPathOf t)) q = _
    have hstep : lookupF ((envrcPathOf t, renderScript t) ::
        eraseF (removeIgnored (envrcPathOf t) fs1).files (envrcPathOf t)) q =
        lookupF (eraseF (removeIgnored (envrcPathOf t) fs1).files (envrcPathOf t)) q := by
      simp only [lookupF]
      rw [if_neg (fun he => hq he.symm)]
    rw [hstep, lookupF_eraseF_ne _ _ _ hq]
    rcases removeIgnored_files (envrcPathOf t) fs1 with hrm | hrm
    · rw [hrm, hfiles1]
    · rw [hrm, lookupF_eraseF_ne _ _ _ hq, hfiles1]
  · intro h1 h2
    refine ⟨splitLines_renderScript t h1 h2, ?_⟩
    have hb0 : (("export " : String).data).isPrefixOf ([] : List Char) = false := by
      decide
    have hb1 : (("export " : String).data).isPrefixOf
        (("export GOFML=" ++ t.ImportPath).data) = true := by
      rw [String.data_append,
        show ("export GOFML=" : String).data =
          ("export " : String).data ++ ("GOFML=" : String).data from by decide,
        List.append_assoc]
      exact isPrefixOf_append_self _ _
    have hb2 : (("export " : String).data).isPrefixOf
        (("export GOPATH=" ++ t.GoFmlPath).data) = true := by
      rw [String.data_append,
        show ("export GOPATH=" : String).data =
          ("export " : String).data ++ ("GOPATH=" : String).data from by decide,
        List.append_assoc]
      exact isPrefixOf_append_self _ _
    have hb3 : (("export " : String).data).isPrefixOf
        (("export PATH=\"$GOPATH/bin:$PATH\"" : String).data) = true := by decide
    unfold countExportLines
    rw [splitLines_renderScript t h1 h2]
    simp [List.filter, hb0, hb1, hb2, hb3]

def taskC4 : InitTask := ⟨"/w", "example.com/foo", "foo", "/w/foo", "/w/foo/src/example.com/foo"⟩

theorem C4_envrc_write_witness :
    InitTask.runTask taskC4 fsEmpty =
        (.ok (), (InitTask.runTask taskC4 fsEmpty).2) ∧
      lookupF (InitTask.runTask taskC4 fsEmpty).2.files (envrcPathOf taskC4) =
        some (renderScript taskC4) ∧
      countExportLines (renderScript taskC4) = 3 :=
  ⟨by decide,
    (C4_envrc_write taskC4 fsEmpty (InitTask.runTask taskC4 fsEmpty).2
      (by decide)).1,
    ((C4_envrc_write taskC4 fsEmpty (InitTask.runTask taskC4 fsEmpty).2
      (by decide)).2.2 (by decide) (by decide)).2⟩

def taskNl : InitTask :=
  ⟨"~/gofml", "x\nexport FOO=1", "x\nexport FOO=1", "~/gofml/x\nexport FOO=1",
    "~/gofml/x\nexport FOO=1/src/x\nexport FOO=1"⟩

/-- Claim C4, counterexample to the claim as stated: an import path
containing a newline and an embedded `export` line is accepted by
`newInitTask`, the run succeeds, and the written `.envrc` contains five
export lines, not three. -/
theorem C4_cx_newline_import :
    newInitTask envNone ["x\nexport FOO=1"] = .ok taskNl ∧
      (InitTask.runTask taskNl fsEmpty).1 = .ok () ∧
      lookupF (InitTask.runTask taskNl fsEmpty).2.files (envrcPathOf taskNl) =
        some (renderScript taskNl) ∧
      countExportLines (renderScript taskNl) = 5 := by
  decide

theorem C6_error_propagation_witness :
    InitTask.runTask taskW fsMkdirFail =
        (.error (.notDir (toPath "/r")), fsMkdirFail) ∧
      InitTask.runTask taskW fsWriteFail =
        (.error (.isDir (envrcPathOf taskW)),
          (writeStep taskW (mkdirStep taskW fsWriteFail).2).2) ∧
      removeIgnored (envrcPathOf taskW) fsEmpty = fsEmpty :=
  ⟨(C6_error_propagation taskW fsMkdirFail).1 (.notDir (toPath "/r")) (by decide),
    (C6_error_propagation taskW fsWriteFail).2.1 (mkdirStep taskW fsWriteFail).2
      (.isDir (envrcPathOf taskW)) (by decide) (by decide),
    ((C6_error_propagation taskW fsEmpty).2.2.2 fsEmpty (by decide) (by decide)).2⟩

/-- Claim C7 (amended): running init twice with the same inputs
succeeds both times provided the derived project path is not itself the
script path `<GoFmlPath>/.envrc` (the two can coincide only through
`..` components in the import path): a second run on the filesystem
produced by a successful first run succeeds and leaves the filesystem
literally unchanged — the pre-existing directories are not an error and
the `.envrc` script is overwritten with identical content. -/
theorem C7_idempotent (t : InitTask) (fs fs2 : FS)
    (hrun : t.runTask fs = (.ok (), fs2))
    (hne : toPath t.ProjectPath ≠ envrcPathOf t) :
    t.runTask fs2 = (.ok (), fs2) ∧
      lookupF fs2.files (envrcPathOf t) = some (renderScript t) := by
  obtain ⟨fs1, hm, hw⟩ := runTask_ok_cases t fs fs2 () hrun
  obtain ⟨hfind, hfs1⟩ := mkdirAll_ok (toPath t.ProjectPath) fs fs1 () hm
  obtain ⟨hnd, hpar, hfs2⟩ :=
    writeFileOp_ok (envrcPathOf t) (renderScript t)
      (removeIgnored (envrcPathOf t) fs1) fs2 () hw
  have hfiles1 : fs1.files = fs.files := by rw [hfs1]
  have hPmem : toPath t.ProjectPath ∈ fs1.dirs := by
    rw [hfs1]
    exact (mem_insertDirs _ _ _).mpr
      (Or.inl (self_mem_prefixesOf _ (toPath_ne_nil _)))
  have hEnotPre : envrcPathOf t ∉ prefixesOf (toPath t.ProjectPath) := by
    intro hEp
    have hEP : leadsTo (envrcPathOf t) (toPath t.ProjectPath) = true :=
      leadsTo_of_mem_prefixesOf _ _ hEp
    have hEne : toPath t.ProjectPath ≠ envrcPathOf t := hne
    have hE1 : envrcPathOf t ∈ fs1.dirs := by
      rw [hfs1]
      exact (mem_insertDirs _ _ _).mpr (Or.inl hEp)
    have hdesc : hasDescendant fs1 (envrcPathOf t) = true := by
      unfold hasDescendant
      have hany : fs1.dirs.any
          (fun q => leadsTo (envrcPathOf t) q && decide (q ≠ envrcPathOf t)) = true := by
        refine List.any_eq_true.mpr ⟨toPath t.ProjectPath, hPmem, ?_⟩
        rw [Bool.and_eq_true]
        exact ⟨hEP, decide_eq_true hEne⟩
      rw [hany]
      rfl
    have hE2 : envrcPathOf t ∈ (removeIgnored (envrcPathOf t) fs1).dirs := by
      rw [removeIgnored_dirs_of_descendant _ _ hdesc]
      exact hE1
    exact hnd hE2
  have hfiles2 : ∀ q ∈ prefixesOf (toPath t.ProjectPath),
      lookupF fs2.files q = none := by
    intro q hq
    have hqE : q ≠ envrcPathOf t := fun he => hEnotPre (he ▸ hq)
    rw [hfs2]
    show lookupF ((envrcPathOf t, renderScript t) ::
      eraseF (removeIgnored (envrcPathOf t) fs1).files (envrcPathOf t)) q = none
    simp only [lookupF]
    rw [if_neg (fun he => hqE he.symm), lookupF_eraseF_ne _ _ _ hqE]
    rcases removeIgnored_files (envrcPathOf t) fs1 with hrm | hrm
    · rw [hrm, hfiles1]
      exact hfind q hq
    · rw [hrm, lookupF_eraseF_ne _ _ _ hqE, hfiles1]
      exact hfind q hq
  have hdirs2 : ∀ q ∈ prefixesOf (toPath t.ProjectPath), q ∈ fs2.dirs := by
    intro q hq
    have hqE : q ≠ envrcPathOf t := fun he => hEnotPre (he ▸ hq)
    have hq1 : q ∈ fs1.dirs := by
      rw [hfs1]
      exact (mem_insertDirs _ _ _).mpr (Or.inl hq)
    have hq2 : q ∈ (removeIgnored (envrcPathOf t) fs1).dirs := by
      rcases removeIgnored_dirs (envrcPathOf t) fs1 with hd | hd
      · rw [hd]
        exact hq1
      · rw [hd]
        exact List.mem_filter.mpr ⟨hq1, by simp [hqE]⟩
    rw [hfs2]
    exact hq2
  have hmk2 : mkdirStep t fs2 = (.ok (), fs2) := by
    show FS.mkdirAll (toPath t.ProjectPath) fs2 = (.ok (), fs2)
    rw [mkdirAll_of _ fs2 hfiles2, insertDirs_eq_self _ _ hdirs2]
  have hlook2 : lookupF fs2.files (envrcPathOf t) = some (renderScript t) := by
    rw [hfs2]
    simp [lookupF]
  have hrm2 : FS.removeOp (envrcPathOf t) fs2 =
      (.ok (), ⟨fs2.dirs, eraseF fs2.files (envrcPathOf t)⟩) :=
    removeOp_file _ fs2 (by rw [hlook2]; rfl)
  have hrm2b : removeIgnored (envrcPathOf t) fs2 =
      ⟨fs2.dirs, eraseF fs2.files (envrcPathOf t)⟩ :=
    removeIgnored_of_op_ok _ _ _ hrm2
  have hdirs_eq : fs2.dirs = (removeIgnored (envrcPathOf t) fs1).dirs := by
    rw [hfs2]
  have herase : eraseF fs2.files (envrcPathOf t) =
      eraseF (removeIgnored (envrcPathOf t) fs1).files (envrcPathOf t) := by
    rw [hfs2]
    show eraseF ((envrcPathOf t, renderScript t) ::
      eraseF (removeIgnored (envrcPathOf t) fs1).files (envrcPathOf t)) (envrcPathOf t) = _
    simp only [eraseF]
    rw [if_pos trivial, eraseF_eraseF]
  have hw2 : FS.writeFileOp (envrcPathOf t) (renderScript t)
      (⟨fs2.dirs, eraseF fs2.files (envrcPathOf t)⟩ : FS) = (.ok (), fs2) := by
    rw [writeFileOp_of (envrcPathOf t) (renderScript t) _
      (by show envrcPathOf t ∉ fs2.dirs; rw [hdirs_eq]; exact hnd)
      (by show _ ∨ _ ∨ List.dropLast (envrcPathOf t) ∈ fs2.dirs; rw [hdirs_eq]; exact hpar)]
    show (Except.ok (),
      (⟨fs2.dirs, (envrcPathOf t, renderScript t) ::
        eraseF (eraseF fs2.files (envrcPathOf t)) (envrcPathOf t)⟩ : FS)) = (.ok (), fs2)
    rw [eraseF_eraseF, herase, hdirs_eq, ← hfs2]
  have hws2 : writeStep t fs2 = (.ok (), fs2) := by
    show FS.writeFileOp (envrcPathOf t) (renderScript t)
      (removeIgnored (envrcPathOf t) fs2) = (.ok (), fs2)
    rw [hrm2b]
    exact hw2
  refine ⟨?_, hlook2⟩
  rw [runTask_of_mkdir_ok t fs2 fs2 () hmk2]
  exact hws2

theorem C7_idempotent_witness :
    InitTask.runTask taskC4 (InitTask.runTask taskC4 fsEmpty).2 =
        (.ok (), (InitTask.runTask taskC4 fsEmpty).2) ∧
      lookupF (InitTask.runTask taskC4 fsEmpty).2.files (envrcPathOf taskC4) =
        some (renderScript taskC4) :=
  C7_idempotent taskC4 fsEmpty (InitTask.runTask taskC4 fsEmpty).2
    (by decide) (by decide)

def taskDots : InitTask :=
  ⟨"/g", "../.envrc", ".envrc", "/g/.envrc", "/g/.envrc/.envrc"⟩

/-- Claim C7, counterexample to the claim as stated: with import path
`../.envrc` the derived project path and the script path coincide; the
first run succeeds (it creates the project directory, removes it again
as the empty previous-script path, and writes the script there), and
the second run fails because the project path now exists as a file. -/
theorem C7_cx_dotdot :
    newInitTask envNone ["-g", "/g", "../.envrc"] = .ok taskDots ∧
      (InitTask.runTask taskDots fsEmpty).1 = .ok () ∧
      (InitTask.runTask taskDots (InitTask.runTask taskDots fsEmpty).2).1 =
        .error (.notDir (toPath "/g/.envrc/.envrc")) := by
  decide

end Gofml
